import Mathlib

/-!
Shallow embedding of the rename-planning engine of `tui_rename`
(`src/main.rs`): the `RenameItem` data model, pattern application
(`set_pattern`, `rename`), the session pattern state and its input handlers
(`on_edit_find_pattern`, `on_submit_find_pattern`, `on_edit_replace_pattern`,
`update_renames`), the validation engine (`check_renames`) and the
two-dialog confirmation workflow of `apply_renames`, modelled as an explicit
step relation on the observable dialog/commit state.
-/

namespace TuiRename

/-- A filesystem path, modelled as its list of components (Rust `PathBuf`). -/
abbrev Path := List String

/-- `PathBuf::push` with a relative, separator-free component: appends one
final component to the path. -/
def Path.pushComp (p : Path) (c : String) : Path := p ++ [c]

/-- `Path::to_string_lossy`, rendered with `/` separators. -/
def Path.render (p : Path) : String := String.intercalate "/" p

/-- A compiled regex (`regex::Regex`), modelled extensionally by its
`replace_all` behaviour: haystack and replacement template in, the string
with every non-overlapping match substituted out. The source never inspects
a compiled regex other than through `replace_all`, so this is the whole
interface the embedding needs. -/
def Regex := String → String → String

/-- `Regex::replace_all(haystack, rep)`. -/
def Regex.replace_all (re : Regex) (haystack rep : String) : String :=
  re haystack rep

/-- Modelled from the regex crate: the empty pattern matches the empty
string at every character boundary of the haystack (including both ends),
and `replace_all` substitutes every such non-overlapping match, so the
replacement is inserted at every boundary. -/
def emptyReplaceChars (rep : List Char) : List Char → List Char
  | [] => rep
  | c :: cs => rep ++ c :: emptyReplaceChars rep cs

/-- `Regex::new("")`: the compiled empty pattern (see `emptyReplaceChars`). -/
def emptyRegex : Regex :=
  fun haystack rep => ⟨emptyReplaceChars rep.data haystack.data⟩

/-- One rename candidate (struct `RenameItem` in the source): the original
final path component, the proposed new name, and the full path. -/
structure RenameItem where
  original : String
  renamed : String
  file : Path
  deriving DecidableEq, Repr

/-- Filesystem mutations. `RenameItem::rename` performs none; the
constructor exists so that the absence of filesystem calls is a statement
about a value, not about missing code. -/
inductive FsOp
  | move (src dst : Path)
  deriving DecidableEq, Repr

/-- `RenameItem::set_pattern`: recompute `renamed` by applying the compiled
pattern to `original` with the replacement template. -/
def RenameItem.set_pattern (it : RenameItem) (find_pat : Regex)
    (replace_pat : String) : RenameItem :=
  { it with renamed := find_pat.replace_all it.original replace_pat }

/-- `RenameItem::rename` as written in the source: it builds a local
`owned = self.file` with `self.renamed` pushed onto it as an extra final
component, then drops the value. The first component of the result is the
list of filesystem operations the function performs (there are none — the
body makes no filesystem call and returns unit); the second is the final
value of the local `owned`. -/
def RenameItem.rename (it : RenameItem) : List FsOp × Path :=
  let owned := it.file.pushComp it.renamed
  ([], owned)

/-- Session pattern state (struct `RenamePatterns`, held in `user_data`). -/
structure RenamePatterns where
  find_pat_raw : String
  find_pat : Regex
  replace_pat : String

/-- The initial pattern state installed by `main`
(`set_user_data`): empty raw text, `Regex::new("")`, empty replacement. -/
def initialPatterns : RenamePatterns :=
  { find_pat_raw := "", find_pat := emptyRegex, replace_pat := "" }

/-- `update_renames`: recompute every table item's `renamed` from the
current session patterns. -/
def update_renames (patterns : RenamePatterns) (items : List RenameItem) :
    List RenameItem :=
  items.map (fun it => it.set_pattern patterns.find_pat patterns.replace_pat)

/-- The pieces of session state the input handlers touch: the pattern state
(`user_data`), the table items, the inline error line (`error_message`
text view) and the stack of blocking pattern-error dialogs. -/
structure AppState where
  patterns : RenamePatterns
  items : List RenameItem
  error_message : String
  error_dialogs : List String

/-- The last line of a diagnostic (`err.lines().last().unwrap()`). -/
def lastLine (err : String) : String :=
  (err.splitOn "\n").getLastD ""

/-- `on_edit_find_pattern`: store the raw text; on successful compilation
install the new pattern, clear the inline error and recompute every item;
on failure change nothing else and show the diagnostic's last line inline.
`compile` stands for `Regex::new`. -/
def on_edit_find_pattern (compile : String → Except String Regex)
    (st : AppState) (new_val : String) : AppState :=
  let patterns := { st.patterns with find_pat_raw := new_val }
  match compile new_val with
  | .ok re =>
      let patterns := { patterns with find_pat := re }
      { st with patterns := patterns, error_message := "",
                items := update_renames patterns st.items }
  | .error err =>
      { st with patterns := patterns, error_message := lastLine err }

/-- `on_submit_find_pattern`: store the raw text; on success install the
pattern and recompute every item (the inline error is not touched); on
failure push a blocking "Pattern Error" dialog. -/
def on_submit_find_pattern (compile : String → Except String Regex)
    (st : AppState) (new_val : String) : AppState :=
  let patterns := { st.patterns with find_pat_raw := new_val }
  match compile new_val with
  | .ok re =>
      let patterns := { patterns with find_pat := re }
      { st with patterns := patterns,
                items := update_renames patterns st.items }
  | .error err =>
      { st with patterns := patterns,
                error_dialogs := err :: st.error_dialogs }

/-- `on_edit_replace_pattern`: store the replacement text and recompute
every item. -/
def on_edit_replace_pattern (st : AppState) (new_val : String) : AppState :=
  let patterns := { st.patterns with replace_pat := new_val }
  { st with patterns := patterns,
            items := update_renames patterns st.items }

/-- Result of `check_renames`. -/
structure CheckResult where
  conflicting_names : List String
  permission_problems : List String
  deriving DecidableEq, Repr

/-- The collision loop of `check_renames`. `seen` is the content of
`unique_set` so far; `BTreeSet::insert` returns `false` exactly when the
value is already present (and otherwise adds it), and only membership is
ever consulted, so the set is modelled as the list of distinct values
inserted so far. A value already seen is appended to the conflict list. -/
def conflictLoop (seen : List String) : List String → List String
  | [] => []
  | v :: vs =>
      if v ∈ seen then v :: conflictLoop seen vs
      else conflictLoop (v :: seen) vs

/-- Outcome of `fs::metadata` at a path: `none` when the read fails,
`some ro` when it succeeds with `permissions().readonly() = ro`. The
filesystem is a parameter of the embedding. -/
abbrev MetaFs := Path → Option Bool

/-- The renameability test in `check_renames`: metadata-read failure or a
read-only flag marks the item as a permission problem. -/
def permBad (meta : MetaFs) (it : RenameItem) : Bool :=
  match meta it.file with
  | some ro => ro
  | none => true

/-- `check_renames`: collision detection over the `renamed` values, and the
renameability filter over the items' paths. -/
def check_renames (meta : MetaFs) (items : List RenameItem) : CheckResult :=
  { conflicting_names := conflictLoop [] (items.map (fun it => it.renamed)),
    permission_problems := items.filterMap (fun it =>
      if permBad meta it then some it.file.render else none) }

/-- The four button events the two warning dialogs of `apply_renames` can
emit. -/
inductive Event
  | namesCancel
  | namesContinue
  | permCancel
  | permContinue
  deriving DecidableEq, Repr

/-- Observable state of one apply request: which warning dialogs are open
(`add_layer` / `pop_layer`), whether each dialog's "Continue" button is
still enabled, the items `rename()` has been invoked on so far, how many
times the `do_rename` closure has run, the summary dialog's count when
shown, and the values captured by `do_rename` (`items_clone` and the
pre-computed `actual_length`). -/
structure WState where
  namesOpen : Bool
  permOpen : Bool
  namesEnabled : Bool
  permEnabled : Bool
  renameCalls : List RenameItem
  commits : Nat
  summaryShown : Option Nat
  items : List RenameItem
  actualLength : Nat
  deriving DecidableEq, Repr

/-- The `do_rename` closure: invoke `rename()` on every captured item, pop
every open layer, and show the summary dialog with the pre-computed
`actual_length`. -/
def doRename (s : WState) : WState :=
  { s with renameCalls := s.renameCalls ++ s.items,
           commits := s.commits + 1,
           namesOpen := false,
           permOpen := false,
           summaryShown := some s.actualLength }

/-- One button press. A press on a dialog that is not open, or on a
disabled "Continue" button, has no effect (a closed dialog cannot emit
events and a disabled button does not fire). "Cancel" pops the dialog's own
layer and, via `call_on_name`, disables the sibling dialog's second button
("Continue") when that dialog still exists; "Continue" pops its own layer
and runs `do_rename` exactly when `find_name` reports the sibling dialog
gone. -/
def step (s : WState) : Event → WState
  | .namesCancel =>
      if s.namesOpen then
        let s1 := { s with namesOpen := false }
        if s1.permOpen then { s1 with permEnabled := false } else s1
      else s
  | .namesContinue =>
      if s.namesOpen && s.namesEnabled then
        let s1 := { s with namesOpen := false }
        if s1.permOpen then s1 else doRename s1
      else s
  | .permCancel =>
      if s.permOpen then
        let s1 := { s with permOpen := false }
        if s1.namesOpen then { s1 with namesEnabled := false } else s1
      else s
  | .permContinue =>
      if s.permOpen && s.permEnabled then
        let s1 := { s with permOpen := false }
        if s1.namesOpen then s1 else doRename s1
      else s

/-- Run a sequence of button presses. -/
def run (s : WState) : List Event → WState
  | [] => s
  | e :: tr => run (step s e) tr

/-- `apply_renames`: run `check_renames` over the table items, compute
`actual_length = items.len() - permission_problems.len()`, and open one
warning dialog per non-empty problem list. Nothing else happens until a
dialog button fires: in particular no commit path exists outside the two
"Continue" handlers. -/
def apply_renames (meta : MetaFs) (items : List RenameItem) : WState :=
  let check := check_renames meta items
  let actual_length := items.length - check.permission_problems.length
  { namesOpen := decide (0 < check.conflicting_names.length),
    permOpen := decide (0 < check.permission_problems.length),
    namesEnabled := true,
    permEnabled := true,
    renameCalls := [],
    commits := 0,
    summaryShown := none,
    items := items,
    actualLength := actual_length }

/-- Whether `e` is an effective press in state `s` (the dialog is open and,
for "Continue", its button enabled). -/
def effEvent (s : WState) : Event → Bool
  | .namesCancel => s.namesOpen
  | .namesContinue => s.namesOpen && s.namesEnabled
  | .permCancel => s.permOpen
  | .permContinue => s.permOpen && s.permEnabled

/-- Recognize the "Cancel" events. -/
def isCancel : Event → Bool
  | .namesCancel => true
  | .permCancel => true
  | _ => false

/-- Recognize the names dialog's "Continue" event. -/
def isNamesContinue : Event → Bool
  | .namesContinue => true
  | _ => false

/-- Recognize the permissions dialog's "Continue" event. -/
def isPermContinue : Event → Bool
  | .permContinue => true
  | _ => false

/-- An effective "Cancel" press. -/
def effCancelEvt (s : WState) (e : Event) : Bool :=
  isCancel e && effEvent s e

/-- An effective names-"Continue" press. -/
def effNamesContEvt (s : WState) (e : Event) : Bool :=
  isNamesContinue e && effEvent s e

/-- An effective permissions-"Continue" press. -/
def effPermContEvt (s : WState) (e : Event) : Bool :=
  isPermContinue e && effEvent s e

/-- Whether some step of the trace satisfies `p` at the state it fires
from. -/
def traceHas (p : WState → Event → Bool) : WState → List Event → Bool
  | _, [] => false
  | s, e :: tr => p s e || traceHas p (step s e) tr

/-- Specification-side characterization of duplicate flagging: walk the
list keeping the full prefix already passed; an occurrence is emitted, in
encounter order, exactly when an equal value occurs strictly before it. -/
def dupOccurrences (prev : List String) : List String → List String
  | [] => []
  | v :: vs =>
      if v ∈ prev then v :: dupOccurrences (prev ++ [v]) vs
      else dupOccurrences (prev ++ [v]) vs

/-- Replacing every empty-pattern match by the empty replacement is the
identity. -/
theorem emptyReplaceChars_nil (l : List Char) :
    emptyReplaceChars [] l = l := by
  induction l with
  | nil => rfl
  | cons c cs ih => simp [emptyReplaceChars, ih]

/-- Count of a value in the collision loop's output: one less than its
count in the input when it has not been seen yet, unchanged otherwise. -/
theorem count_conflictLoop (v : String) (vs : List String) : ∀ seen,
    List.count v (conflictLoop seen vs)
      = if v ∈ seen then List.count v vs else List.count v vs - 1 := by
  induction vs with
  | nil => intro seen; simp [conflictLoop]
  | cons x xs ih =>
    intro seen
    by_cases hx : x ∈ seen
    · rw [conflictLoop, if_pos hx]
      by_cases hv : v ∈ seen
      · simp [List.count_cons, ih seen, hv]
      · have hvx : v ≠ x := fun h => hv (h ▸ hx)
        have h0 : List.count v xs - 1 + (if x = v then 1 else 0)
            = List.count v xs + (if x = v then 1 else 0) - 1 := by
          simp [Ne.symm hvx]
        simp [List.count_cons, ih seen, hv, hvx, Ne.symm hvx]
    · rw [conflictLoop, if_neg hx]
      by_cases hvx : v = x
      · subst hvx
        have hmem : v ∈ v :: seen := List.mem_cons_self v seen
        simp [List.count_cons, ih (v :: seen), hmem, hx]
      · have hmem : (v ∈ x :: seen) ↔ (v ∈ seen) := by
          simp [List.mem_cons, hvx]
        by_cases hv : v ∈ seen <;>
          simp [List.count_cons, ih (x :: seen), hmem, hv, hvx, Ne.symm hvx]

/-- The collision loop agrees with the earlier-occurrence
characterization, provided the seen-set and the passed prefix have the
same members. -/
theorem conflictLoop_eq_dupOccurrences (vs : List String) : ∀ seen prev,
    (∀ x : String, x ∈ seen ↔ x ∈ prev) →
    conflictLoop seen vs = dupOccurrences prev vs := by
  induction vs with
  | nil => intro seen prev _; rfl
  | cons x xs ih =>
    intro seen prev h
    by_cases hx : x ∈ seen
    · have hx2 : x ∈ prev := (h x).mp hx
      rw [conflictLoop, dupOccurrences, if_pos hx, if_pos hx2]
      have h2 : ∀ y : String, y ∈ seen ↔ y ∈ prev ++ [x] := by
        intro y
        rw [h y]
        simp only [List.mem_append, List.mem_singleton]
        exact ⟨fun hy => Or.inl hy, fun hy => hy.elim id (fun hyx => hyx ▸ hx2)⟩
      exact congrArg (x :: ·) (ih seen (prev ++ [x]) h2)
    · have hx2 : x ∉ prev := fun hp => hx ((h x).mpr hp)
      rw [conflictLoop, dupOccurrences, if_neg hx, if_neg hx2]
      refine ih (x :: seen) (prev ++ [x]) ?_
      intro y
      simp only [List.mem_cons, List.mem_append, List.mem_singleton, h y]
      tauto

/-- The renameability test holds exactly when the metadata read fails or
reports the read-only flag. -/
theorem permBad_iff (meta : MetaFs) (it : RenameItem) :
    permBad meta it = true ↔
      meta it.file = none ∨ meta it.file = some true := by
  unfold permBad
  cases h : meta it.file with
  | none => simp
  | some ro => cases ro <;> simp

/-- C1: the claim says `rename()` moves the entry at the item's location
from `original` to `renamed` within its parent directory, failing with an
`IoError` when the move fails. The code does neither: for every item the
function performs no filesystem operation at all, and the only path it
builds is `file` with `renamed` pushed on as an extra child component
(not a sibling in the parent directory); it then drops that path and
returns unit. Instantiated at the failing input
`⟨"a.txt", "b.txt", ["home", "a.txt"]⟩`. -/
theorem c1_rename_performs_no_filesystem_operation :
    (∀ it : RenameItem,
      (RenameItem.rename it).1 = ([] : List FsOp) ∧
      (RenameItem.rename it).2 = it.file ++ [it.renamed]) ∧
    (RenameItem.rename ⟨"a.txt", "b.txt", ["home", "a.txt"]⟩).1
        = ([] : List FsOp) ∧
    (RenameItem.rename ⟨"a.txt", "b.txt", ["home", "a.txt"]⟩).2
        = ["home", "a.txt", "b.txt"] :=
  ⟨fun _ => ⟨rfl, rfl⟩, rfl, rfl⟩

/-- C4: `check_renames` flags duplicate `renamed` values with exact
multiplicity: its `conflicting_names` is precisely the list of occurrences
that have an earlier equal occurrence, in encounter order (so the first
occurrence of a value is never flagged and N occurrences of a value yield
N − 1 entries, which the count identity states for every value), and on
renamed values `["a", "b", "a", "a"]` it returns `["a", "a"]`. -/
theorem c4_conflicting_names_exact_multiplicity (meta : MetaFs)
    (items : List RenameItem) (v : String) :
    (check_renames meta items).conflicting_names
        = dupOccurrences [] (items.map (fun it => it.renamed)) ∧
    List.count v (check_renames meta items).conflicting_names
        = List.count v (items.map (fun it => it.renamed)) - 1 ∧
    (check_renames (fun _ => some false)
        [⟨"f1", "a", ["f1"]⟩, ⟨"f2", "b", ["f2"]⟩,
         ⟨"f3", "a", ["f3"]⟩, ⟨"f4", "a", ["f4"]⟩]).conflicting_names
        = ["a", "a"] := by
  refine ⟨?_, ?_, by decide⟩
  · exact conflictLoop_eq_dupOccurrences _ [] [] (fun x => Iff.rfl)
  · simpa using count_conflictLoop v (items.map (fun it => it.renamed)) []

/-- C5 counterexample: with the empty/initial compiled pattern but the
replacement template `"X"`, the item with original name `"ab"` gets
`renamed = "XaXbX"`, not `"ab"` — the empty pattern matches at every
character boundary, so a non-empty replacement changes the name and the
claim fails as stated for arbitrary replacement templates. -/
theorem c5_counterexample_nonempty_replacement :
    (RenameItem.set_pattern ⟨"ab", "ab", ["d", "ab"]⟩ emptyRegex "X").renamed
        = "XaXbX" ∧
    (RenameItem.set_pattern ⟨"ab", "ab", ["d", "ab"]⟩ emptyRegex "X").renamed
        ≠ "ab" := by
  constructor <;> decide

/-- C5 (amended): if the compiled pattern is the empty/initial pattern and
the replacement template is the empty string — as both are in the initial
session state — then `set_pattern` leaves `renamed` equal to `original`. -/
theorem c5_initial_pattern_with_empty_replacement_is_identity
    (it : RenameItem) :
    (it.set_pattern initialPatterns.find_pat
        initialPatterns.replace_pat).renamed = it.original := by
  obtain ⟨o, r, f⟩ := it
  obtain ⟨l⟩ := o
  show String.mk (emptyReplaceChars [] l) = String.mk l
  rw [emptyReplaceChars_nil]

/-- C9: `renamed` is recomputed from `original` (which `set_pattern` never
changes), so applying the same pattern and replacement twice in a row
equals applying it once, both per item and across a full
`update_renames` recompute. -/
theorem c9_pattern_application_idempotent (it : RenameItem) (re : Regex)
    (rp : String) (p : RenamePatterns) (items : List RenameItem) :
    (it.set_pattern re rp).original = it.original ∧
    ((it.set_pattern re rp).set_pattern re rp) = it.set_pattern re rp ∧
    update_renames p (update_renames p items) = update_renames p items := by
  refine ⟨rfl, rfl, ?_⟩
  induction items with
  | nil => rfl
  | cons x xs ih =>
    simp only [update_renames, List.map_cons, List.map_map] at ih ⊢
    exact List.cons_eq_cons.mpr ⟨rfl, ih⟩

/-- C6: a live edit of the search text that fails to compile updates the
raw text and the inline error line (to the last line of the diagnostic)
but leaves the compiled pattern, the replacement template, every item
(hence every `renamed` value) and the dialog stack unchanged. -/
theorem c6_invalid_edit_keeps_pattern_and_items
    (compile : String → Except String Regex) (st : AppState)
    (v err : String) (h : compile v = .error err) :
    (on_edit_find_pattern compile st v).patterns.find_pat
        = st.patterns.find_pat ∧
    (on_edit_find_pattern compile st v).patterns.replace_pat
        = st.patterns.replace_pat ∧
    (on_edit_find_pattern compile st v).items = st.items ∧
    (on_edit_find_pattern compile st v).patterns.find_pat_raw = v ∧
    (on_edit_find_pattern compile st v).error_message = lastLine err ∧
    (on_edit_find_pattern compile st v).error_dialogs = st.error_dialogs := by
  simp [on_edit_find_pattern, h]

/-- C10: after a failed live edit set the inline error, a subsequent
successful explicit submission installs the new pattern and recomputes
every item, but leaves the inline error line exactly as the failed edit
set it: a stale error remains displayed alongside a valid, active
pattern. -/
theorem c10_successful_submit_keeps_stale_inline_error
    (compile : String → Except String Regex) (st : AppState)
    (v1 e v2 : String) (re : Regex)
    (h1 : compile v1 = .error e) (h2 : compile v2 = .ok re) :
    (on_submit_find_pattern compile
        (on_edit_find_pattern compile st v1) v2).error_message
      = (on_edit_find_pattern compile st v1).error_message ∧
    (on_edit_find_pattern compile st v1).error_message = lastLine e ∧
    (on_submit_find_pattern compile
        (on_edit_find_pattern compile st v1) v2).patterns.find_pat = re ∧
    (on_submit_find_pattern compile
        (on_edit_find_pattern compile st v1) v2).patterns.find_pat_raw
      = v2 ∧
    (on_submit_find_pattern compile
        (on_edit_find_pattern compile st v1) v2).items
      = st.items.map (fun it =>
          it.set_pattern re st.patterns.replace_pat) := by
  simp [on_edit_find_pattern, on_submit_find_pattern, update_renames, h1, h2]

/-- C7: an item's rendered path appears in `permission_problems` exactly
when the metadata read at its path fails (fail-closed) or succeeds with
the read-only flag set. -/
theorem c7_permission_problems_characterization (meta : MetaFs)
    (items : List RenameItem) (p : String) :
    p ∈ (check_renames meta items).permission_problems ↔
      ∃ it, it ∈ items ∧ p = it.file.render ∧
        (meta it.file = none ∨ meta it.file = some true) := by
  simp only [check_renames, List.mem_filterMap]
  constructor
  · rintro ⟨it, hmem, hsome⟩
    by_cases hb : permBad meta it
    · rw [if_pos hb] at hsome
      exact ⟨it, hmem, (Option.some.inj hsome).symm, (permBad_iff meta it).mp hb⟩
    · rw [if_neg hb] at hsome
      exact absurd hsome (Option.noConfusion)
  · rintro ⟨it, hmem, rfl, hbad⟩
    exact ⟨it, hmem, by rw [if_pos ((permBad_iff meta it).mpr hbad)]⟩

/-- A `Regex::new` stand-in that rejects every input with a two-line
diagnostic. -/
def compileFailAll : String → Except String Regex :=
  fun _ => .error "bad\nline"

/-- A `Regex::new` stand-in that accepts exactly the empty pattern. -/
def compileEmptyOk : String → Except String Regex :=
  fun v =>
    match v.data with
    | [] => .ok emptyRegex
    | _ :: _ => .error "bad\nline"

/-- A concrete session state for witnesses. -/
def sampleState : AppState :=
  { patterns := initialPatterns,
    items := [⟨"a.txt", "a.txt", ["a.txt"]⟩],
    error_message := "",
    error_dialogs := [] }

/-- Witness for C6 at a concrete failing compile. -/
theorem c6_invalid_edit_keeps_pattern_and_items_witness :
    compileFailAll "(" = .error "bad\nline" ∧
    ((on_edit_find_pattern compileFailAll sampleState "(").patterns.find_pat
        = sampleState.patterns.find_pat ∧
     (on_edit_find_pattern compileFailAll sampleState "(").patterns.replace_pat
        = sampleState.patterns.replace_pat ∧
     (on_edit_find_pattern compileFailAll sampleState "(").items
        = sampleState.items ∧
     (on_edit_find_pattern compileFailAll sampleState "(").patterns.find_pat_raw
        = "(" ∧
     (on_edit_find_pattern compileFailAll sampleState "(").error_message
        = lastLine "bad\nline" ∧
     (on_edit_find_pattern compileFailAll sampleState "(").error_dialogs
        = sampleState.error_dialogs) :=
  ⟨rfl, c6_invalid_edit_keeps_pattern_and_items compileFailAll sampleState
    "(" "bad\nline" rfl⟩

/-- Witness for C10 at a concrete failed edit followed by a successful
submission. -/
theorem c10_successful_submit_keeps_stale_inline_error_witness :
    compileEmptyOk "x" = .error "bad\nline" ∧
    compileEmptyOk "" = .ok emptyRegex ∧
    ((on_submit_find_pattern compileEmptyOk
        (on_edit_find_pattern compileEmptyOk sampleState "x") "").error_message
      = (on_edit_find_pattern compileEmptyOk sampleState "x").error_message ∧
     (on_edit_find_pattern compileEmptyOk sampleState "x").error_message
      = lastLine "bad\nline" ∧
     (on_submit_find_pattern compileEmptyOk
        (on_edit_find_pattern compileEmptyOk sampleState "x") "").patterns.find_pat
      = emptyRegex ∧
     (on_submit_find_pattern compileEmptyOk
        (on_edit_find_pattern compileEmptyOk sampleState "x") "").patterns.find_pat_raw
      = "" ∧
     (on_submit_find_pattern compileEmptyOk
        (on_edit_find_pattern compileEmptyOk sampleState "x") "").items
      = sampleState.items.map (fun it =>
          it.set_pattern emptyRegex sampleState.patterns.replace_pat)) :=
  ⟨rfl, rfl, c10_successful_submit_keeps_stale_inline_error compileEmptyOk
    sampleState "x" "bad\nline" "" emptyRegex rfl rfl⟩

/-- With both dialogs closed every button event is a no-op. -/
theorem step_closed (s : WState) (e : Event)
    (hn : s.namesOpen = false) (hp : s.permOpen = false) :
    step s e = s := by
  cases e <;> simp [step, hn, hp]

/-- With both dialogs closed every trace is a no-op. -/
theorem run_closed (s : WState) (tr : List Event)
    (hn : s.namesOpen = false) (hp : s.permOpen = false) :
    run s tr = s := by
  induction tr with
  | nil => rfl
  | cons e tr ih => rw [run, step_closed s e hn hp]; exact ih

/-- No button event changes the captured `items_clone` or
`actual_length`. -/
theorem step_const (s : WState) (e : Event) :
    (step s e).items = s.items ∧ (step s e).actualLength = s.actualLength := by
  cases e <;> dsimp only [step, doRename] <;> split_ifs <;> exact ⟨rfl, rfl⟩

/-- No trace changes the captured `items_clone` or `actual_length`. -/
theorem run_const (tr : List Event) : ∀ s : WState,
    (run s tr).items = s.items ∧ (run s tr).actualLength = s.actualLength := by
  induction tr with
  | nil => intro s; exact ⟨rfl, rfl⟩
  | cons e tr ih =>
    intro s
    rw [run]
    rcases ih (step s e) with ⟨h1, h2⟩
    rcases step_const s e with ⟨h3, h4⟩
    exact ⟨h1.trans h3, h2.trans h4⟩

/-- Commit invariant: either no commit has fired yet and no `rename()` call
or summary exists, or exactly one commit has fired, `rename()` was invoked
on exactly the captured items, the summary shows the pre-computed count
and both dialogs are closed. -/
def CommitInv (s : WState) : Prop :=
  (s.commits = 0 ∧ s.renameCalls = [] ∧ s.summaryShown = none) ∨
  (s.commits = 1 ∧ s.renameCalls = s.items ∧
    s.summaryShown = some s.actualLength ∧
    s.namesOpen = false ∧ s.permOpen = false)

/-- The commit invariant is preserved by every button event. -/
theorem CommitInv_step (s : WState) (e : Event) (h : CommitInv s) :
    CommitInv (step s e) := by
  rcases h with ⟨hcm, hrc, hss⟩ | ⟨hcm, hrc, hss, hno, hpo⟩
  · obtain ⟨no, po, nen, pen, rc, cm, ss, its, al⟩ := s
    cases e <;> cases no <;> cases po <;> cases nen <;> cases pen <;>
      simp_all [CommitInv, step, doRename]
  · rw [step_closed s e hno hpo]
    exact Or.inr ⟨hcm, hrc, hss, hno, hpo⟩

/-- The commit invariant holds along every trace. -/
theorem CommitInv_run (tr : List Event) : ∀ s : WState,
    CommitInv s → CommitInv (run s tr) := by
  induction tr with
  | nil => intro s h; exact h
  | cons e tr ih => intro s h; exact ih (step s e) (CommitInv_step s e h)

/-- Reachable shapes of one apply request that opened both dialogs, paired
with whether a names-"Continue", a perm-"Continue" and a "Cancel" have
fired so far: both dialogs untouched; one resolved by "Continue" with the
other still armed; committed; or aborted by a "Cancel" with any dialog
still open having its "Continue" disabled. -/
def DialogInv (s : WState) (cn cp cc : Bool) : Prop :=
  (s.namesOpen = true ∧ s.permOpen = true ∧ s.namesEnabled = true ∧
    s.permEnabled = true ∧ s.commits = 0 ∧
    cn = false ∧ cp = false ∧ cc = false) ∨
  (s.namesOpen = false ∧ s.permOpen = true ∧ s.permEnabled = true ∧
    s.commits = 0 ∧ cn = true ∧ cc = false) ∨
  (s.namesOpen = true ∧ s.permOpen = false ∧ s.namesEnabled = true ∧
    s.commits = 0 ∧ cp = true ∧ cc = false) ∨
  (s.namesOpen = false ∧ s.permOpen = false ∧ s.commits = 1 ∧
    cn = true ∧ cp = true ∧ cc = false) ∨
  (cc = true ∧ s.commits = 0 ∧
    (s.namesOpen = true → s.namesEnabled = false) ∧
    (s.permOpen = true → s.permEnabled = false))

/-- The dialog invariant is preserved by every button event. -/
theorem DialogInv_step (s : WState) (cn cp cc : Bool) (e : Event)
    (h : DialogInv s cn cp cc) :
    DialogInv (step s e) (cn || effNamesContEvt s e)
      (cp || effPermContEvt s e) (cc || effCancelEvt s e) := by
  obtain ⟨no, po, nen, pen, rc, cm, ss, its, al⟩ := s
  rcases h with ⟨h1, h2, h3, h4, h5, h6, h7, h8⟩ |
    ⟨h1, h2, h3, h4, h5, h6⟩ | ⟨h1, h2, h3, h4, h5, h6⟩ |
    ⟨h1, h2, h3, h4, h5, h6⟩ | ⟨h1, h2, h3, h4⟩ <;>
    cases e <;> cases no <;> cases po <;> cases nen <;> cases pen <;>
    simp_all [DialogInv, step, doRename, effNamesContEvt, effPermContEvt,
      effCancelEvt, effEvent, isCancel, isNamesContinue, isPermContinue]

/-- The dialog invariant holds along every trace. -/
theorem DialogInv_run (tr : List Event) : ∀ (s : WState) (cn cp cc : Bool),
    DialogInv s cn cp cc →
    DialogInv (run s tr) (cn || traceHas effNamesContEvt s tr)
      (cp || traceHas effPermContEvt s tr)
      (cc || traceHas effCancelEvt s tr) := by
  induction tr with
  | nil => intro s cn cp cc h; simpa [run, traceHas] using h
  | cons e tr ih =>
    intro s cn cp cc h
    have h2 := ih (step s e) (cn || effNamesContEvt s e)
      (cp || effPermContEvt s e) (cc || effCancelEvt s e)
      (DialogInv_step s cn cp cc e h)
    simpa [run, traceHas, Bool.or_assoc] using h2

/-- A filesystem where every metadata read succeeds writable. -/
def writableFs : MetaFs := fun _ => some false

/-- A filesystem where every metadata read reports read-only. -/
def readonlyFs : MetaFs := fun _ => some true

/-- Two candidates with distinct proposed names. -/
def distinctItems : List RenameItem :=
  [⟨"a.txt", "a2.txt", ["a.txt"]⟩, ⟨"b.txt", "b2.txt", ["b.txt"]⟩]

/-- Two candidates proposed the same name. -/
def clashItems : List RenameItem :=
  [⟨"f1", "a", ["f1"]⟩, ⟨"f2", "a", ["f2"]⟩]

/-- C2: the claim says that when `check_renames` returns empty
`conflicting_names` and empty `permission_problems` an apply request
proceeds straight to commit, invoking `rename()` for every item with no
dialog. The code shows no dialog, but it also never commits: `do_rename`
is reachable only from the two warning dialogs' "Continue" handlers, so
with neither dialog opened, every later event is a no-op and `rename()`
is never invoked — stated over every subsequent event trace. -/
theorem c2_no_problems_apply_never_commits (meta : MetaFs)
    (items : List RenameItem)
    (hn : (check_renames meta items).conflicting_names = [])
    (hp : (check_renames meta items).permission_problems = []) :
    (apply_renames meta items).namesOpen = false ∧
    (apply_renames meta items).permOpen = false ∧
    ∀ tr : List Event,
      (run (apply_renames meta items) tr).renameCalls = [] ∧
      (run (apply_renames meta items) tr).commits = 0 := by
  have h1 : (apply_renames meta items).namesOpen = false := by
    simp [apply_renames, hn]
  have h2 : (apply_renames meta items).permOpen = false := by
    simp [apply_renames, hp]
  refine ⟨h1, h2, fun tr => ?_⟩
  rw [run_closed _ tr h1 h2]
  exact ⟨rfl, rfl⟩

/-- Witness for C2: two writable files with distinct proposed names; even
after pressing every button, nothing has been renamed. -/
theorem c2_no_problems_apply_never_commits_witness :
    (apply_renames writableFs distinctItems).namesOpen = false ∧
    (apply_renames writableFs distinctItems).permOpen = false ∧
    (run (apply_renames writableFs distinctItems)
      [Event.namesContinue, Event.permContinue, Event.namesCancel,
       Event.permCancel]).renameCalls = [] ∧
    (run (apply_renames writableFs distinctItems)
      [Event.namesContinue, Event.permContinue, Event.namesCancel,
       Event.permCancel]).commits = 0 := by
  have h := c2_no_problems_apply_never_commits writableFs distinctItems
    (by decide) (by decide)
  exact ⟨h.1, h.2.1,
    (h.2.2 [Event.namesContinue, Event.permContinue, Event.namesCancel,
      Event.permCancel]).1,
    (h.2.2 [Event.namesContinue, Event.permContinue, Event.namesCancel,
      Event.permCancel]).2⟩

/-- C3: for an apply request that shows both the collision and the
permission warning, along every subsequent event trace: commit fires at
most once; it fired exactly when both dialogs were resolved through their
"Continue" buttons (in either order) and no effective "Cancel" occurred;
and once either dialog is answered with "Cancel", no commit ever fires
and whichever dialog is still open has its "Continue" button disabled. -/
theorem c3_two_dialog_commit_coordination (meta : MetaFs)
    (items : List RenameItem) (tr : List Event)
    (hn : (check_renames meta items).conflicting_names ≠ [])
    (hp : (check_renames meta items).permission_problems ≠ []) :
    (run (apply_renames meta items) tr).commits ≤ 1 ∧
    ((run (apply_renames meta items) tr).commits = 1 →
      traceHas effNamesContEvt (apply_renames meta items) tr = true ∧
      traceHas effPermContEvt (apply_renames meta items) tr = true ∧
      traceHas effCancelEvt (apply_renames meta items) tr = false) ∧
    (traceHas effCancelEvt (apply_renames meta items) tr = true →
      (run (apply_renames meta items) tr).commits = 0 ∧
      ((run (apply_renames meta items) tr).namesOpen = true →
        (run (apply_renames meta items) tr).namesEnabled = false) ∧
      ((run (apply_renames meta items) tr).permOpen = true →
        (run (apply_renames meta items) tr).permEnabled = false)) := by
  have h0 : DialogInv (apply_renames meta items) false false false := by
    refine Or.inl ⟨?_, ?_, rfl, rfl, rfl, rfl, rfl, rfl⟩
    · simp only [apply_renames, decide_eq_true_eq]
      exact List.length_pos.mpr hn
    · simp only [apply_renames, decide_eq_true_eq]
      exact List.length_pos.mpr hp
  have hinv := DialogInv_run tr (apply_renames meta items) false false false h0
  simp only [Bool.false_or] at hinv
  rcases hinv with ⟨_, _, _, _, hcm, hcn, hcp, hcc⟩ |
    ⟨_, _, _, hcm, hcn, hcc⟩ | ⟨_, _, _, hcm, hcp, hcc⟩ |
    ⟨hno, hpo, hcm, hcn, hcp, hcc⟩ | ⟨hcc, hcm, hnd, hpd⟩ <;>
    rw [hcm] <;>
    refine ⟨by omega, ?_, ?_⟩ <;> intro hx <;> simp_all

/-- Witness for C3: both warnings shown (a name clash on a read-only
filesystem); continuing both commits exactly once with no cancel. -/
theorem c3_two_dialog_commit_coordination_witness :
    (run (apply_renames readonlyFs clashItems)
      [Event.namesContinue, Event.permContinue]).commits ≤ 1 ∧
    ((run (apply_renames readonlyFs clashItems)
      [Event.namesContinue, Event.permContinue]).commits = 1 →
      traceHas effNamesContEvt (apply_renames readonlyFs clashItems)
        [Event.namesContinue, Event.permContinue] = true ∧
      traceHas effPermContEvt (apply_renames readonlyFs clashItems)
        [Event.namesContinue, Event.permContinue] = true ∧
      traceHas effCancelEvt (apply_renames readonlyFs clashItems)
        [Event.namesContinue, Event.permContinue] = false) ∧
    (traceHas effCancelEvt (apply_renames readonlyFs clashItems)
      [Event.namesContinue, Event.permContinue] = true →
      (run (apply_renames readonlyFs clashItems)
        [Event.namesContinue, Event.permContinue]).commits = 0 ∧
      ((run (apply_renames readonlyFs clashItems)
        [Event.namesContinue, Event.permContinue]).namesOpen = true →
        (run (apply_renames readonlyFs clashItems)
          [Event.namesContinue, Event.permContinue]).namesEnabled = false) ∧
      ((run (apply_renames readonlyFs clashItems)
        [Event.namesContinue, Event.permContinue]).permOpen = true →
        (run (apply_renames readonlyFs clashItems)
          [Event.namesContinue, Event.permContinue]).permEnabled = false)) :=
  c3_two_dialog_commit_coordination readonlyFs clashItems
    [Event.namesContinue, Event.permContinue] (by decide) (by decide)

/-- C8: whenever commit fires, `rename()` has been invoked on every item
of the original candidate set (flagged ones included), both warning
dialogs are closed, and the summary dialog shows
`items.len() - permission_problems.len()`, the count computed before
committing. -/
theorem c8_commit_covers_every_item (meta : MetaFs)
    (items : List RenameItem) (tr : List Event)
    (h : (run (apply_renames meta items) tr).commits = 1) :
    (run (apply_renames meta items) tr).renameCalls = items ∧
    (run (apply_renames meta items) tr).namesOpen = false ∧
    (run (apply_renames meta items) tr).permOpen = false ∧
    (run (apply_renames meta items) tr).summaryShown
      = some (items.length
          - (check_renames meta items).permission_problems.length) := by
  have hinv := CommitInv_run tr (apply_renames meta items)
    (Or.inl ⟨rfl, rfl, rfl⟩)
  rcases run_const tr (apply_renames meta items) with ⟨hits, hal⟩
  rcases hinv with ⟨hcm, _, _⟩ | ⟨_, hrc, hss, hno, hpo⟩
  · rw [h] at hcm; exact absurd hcm one_ne_zero
  · refine ⟨?_, hno, hpo, ?_⟩
    · rw [hrc, hits]; rfl
    · rw [hss, hal]; rfl

/-- Witness for C8: a name clash on a writable filesystem, resolved by
"Continue": both items get `rename()` invoked and the summary reads 2. -/
theorem c8_commit_covers_every_item_witness :
    (run (apply_renames writableFs clashItems)
      [Event.namesContinue]).renameCalls = clashItems ∧
    (run (apply_renames writableFs clashItems)
      [Event.namesContinue]).namesOpen = false ∧
    (run (apply_renames writableFs clashItems)
      [Event.namesContinue]).permOpen = false ∧
    (run (apply_renames writableFs clashItems)
      [Event.namesContinue]).summaryShown
      = some (clashItems.length
          - (check_renames writableFs clashItems).permission_problems.length) :=
  c8_commit_covers_every_item writableFs clashItems
    [Event.namesContinue] (by decide)

end TuiRename
